import Mathlib

/-!
Shallow embedding of the probabilistic multi-tier lookup subsystem of the
backend-template-express repository, together with theorems settling the
frozen claims about it.

The embedded code:
  - `BloomFilter` (src/structs/BloomFilter.ts): element serialization, the
    two hashing paths (xxhash and the crypto fallback), the bounded hash
    memoization cache, `add` / `addAll` / `has` / `clearCache` / state
    instantiation (the `import` method, modelled as `importOp`).
  - `Encryption` (encrypt/decrypt with the fixed salt/iv/authTag layout).
  - `EntityLookupService.exists` (the tiered orchestrator) and
    `AbstractMultiLayerLookupService` (`exists` / `add`).
  - `ThreadsManager.findAvailableThread` / `assignOperation` (dispatch).

External collaborators (Node's crypto module, xxhash-wasm, Buffer base64
codecs, Redis, Prisma, worker_threads) are modelled as function parameters;
everything the repository's own code computes is embedded concretely,
including JavaScript 32-bit signed shift / bitwise-or / remainder semantics
where the source relies on them.
-/

namespace BloomModel

/-- JavaScript runtime values, as far as the bloom filter state handling
needs them: numbers (modelled as integers), strings, booleans, null,
undefined and arrays. -/
inductive JsValue where
  | num (n : Int)
  | str (s : String)
  | boolv (b : Bool)
  | nullv
  | undefv
  | arrv (xs : List JsValue)

/-- `Array.isArray` check used by the state validation. -/
def isArrayVal : JsValue → Bool
  | .arrv _ => true
  | _ => false

/-- The `typeof v === "number"` check used by the state validation. -/
def isNumberVal : JsValue → Bool
  | .num _ => true
  | _ => false

/-- JavaScript truthiness of a value (used by `if (state.expectedElements)`). -/
def truthyVal : JsValue → Bool
  | .num n => decide (n ≠ 0)
  | .str s => decide (s ≠ "")
  | .boolv b => b
  | .nullv => false
  | .undefv => false
  | .arrv _ => true

/-- Numeric payload of a value (only consulted once `isNumberVal` holds). -/
def numOf : JsValue → Int
  | .num n => n
  | _ => 0

/-- Element payload of an array value (only consulted once `isArrayVal` holds). -/
def elemsOf : JsValue → List JsValue
  | .arrv xs => xs
  | _ => []

/-- The JavaScript strict comparison `v === 0` against the number literal 0. -/
def strictEqZero : JsValue → Bool
  | .num n => decide (n = 0)
  | _ => false

/-- Elements that can be fed to `BloomFilter.add` / `has` and that
`serializeElement` accepts. -/
inductive JsElem where
  | str (s : String)
  | num (n : Int)
  | boolv (b : Bool)
  | nullv
  | undefv
deriving DecidableEq

/-- `BloomFilter.serializeElement`: strings pass through, numbers and
booleans stringify, null and undefined become the strings "null" and
"undefined" (via `String(element)`). -/
def serializeElement : JsElem → String
  | .str s => s
  | .num n => toString n
  | .boolv b => if b then "true" else "false"
  | .nullv => "null"
  | .undefv => "undefined"

/-- `ToInt32` of ECMAScript: wrap an integer into the signed 32-bit range. -/
def toInt32 (x : Int) : Int :=
  let m := x.emod 4294967296
  if m < 2147483648 then m else m - 4294967296

/-- Unsigned 32-bit representation of an integer (two's complement). -/
def toUint32 (x : Int) : Nat := (x.emod 4294967296).toNat

/-- JavaScript `<<` on 32-bit integers: `ToInt32(x) * 2^k`, wrapped. -/
def jsShl (x : Int) (k : Nat) : Int := toInt32 (toInt32 x * (2 ^ k : Nat))

/-- JavaScript `|`: bitwise or on the 32-bit two's-complement
representations, reinterpreted as a signed 32-bit integer. -/
def jsOr (x y : Int) : Int := toInt32 (Int.ofNat (Nat.lor (toUint32 x) (toUint32 y)))

/-- Byte access `baseHash[(j) % 32]` into the 32-byte digest buffer. -/
def byteAt (digest : List Nat) (j : Nat) : Nat := digest.getD (j % 32) 0

/-- One derived hash value of `BloomFilter.generateCryptoHashes`: four
digest bytes combined with JavaScript `<< | `, then JavaScript `%` (an
`Int.tmod`, which keeps the sign of the dividend) by the filter size. -/
def cryptoIndex (digest : List Nat) (i : Nat) (size : Int) : Int :=
  Int.tmod
    (jsOr
      (jsOr
        (jsOr (jsShl (Int.ofNat (byteAt digest (i * 4))) 24)
              (jsShl (Int.ofNat (byteAt digest (i * 4 + 1))) 16))
        (jsShl (Int.ofNat (byteAt digest (i * 4 + 2))) 8))
      (Int.ofNat (byteAt digest (i * 4 + 3))))
    size

/-- `BloomFilter.generateCryptoHashes`, given the externally computed
SHA-256 digest of the serialized input. -/
def generateCryptoHashes (digest : List Nat) (k : Int) (size : Int) : List Int :=
  (List.range k.toNat).map (fun i => cryptoIndex digest i size)

/-- `BloomFilter.generateXXHashes`, given the external 64-bit xxhash as a
function from the serialized input and the seed to a nonnegative 64-bit
value; the per-function seed offsets are those of the source. -/
def generateXXHashes (h64 : String → Nat → Nat) (input : String) (k : Int) (size : Int) :
    List Int :=
  (List.range k.toNat).map (fun i => Int.tmod (Int.ofNat (h64 input (43981 + i * 4660))) size)

/-- Which hashing backend the filter instance ended up with: the xxhash
hasher when `initXXHash` succeeded, the crypto fallback otherwise.  The
actual hash primitives live outside the repository and are parameters. -/
inductive Hasher where
  | xx (h64 : String → Nat → Nat)
  | crypto (digest : String → List Nat)

/-- The filter parameters every hash computation depends on. -/
structure HashParams where
  size : Int
  numberOfHashFunctions : Int
  hasher : Hasher

/-- `BloomFilter.generateHashesEfficiently`: xxhash when available,
crypto fallback otherwise. -/
def generateHashesEfficiently (p : HashParams) (input : String) : List Int :=
  match p.hasher with
  | .xx h64 => generateXXHashes h64 input p.numberOfHashFunctions p.size
  | .crypto digest => generateCryptoHashes (digest input) p.numberOfHashFunctions p.size

/-- Capacity bound of the hash memoization cache (`MAX_CACHE_SIZE`). -/
def MAX_CACHE_SIZE : Nat := 1000

/-- State of one `BloomFilter` instance.  `bits` is the `bitArray` proper
(indices `0 ≤ i < bits.length`); `props` records the integer indices
outside that range that have been assigned `1` — JavaScript arrays accept
such writes as ordinary properties, and reads of unwritten out-of-range
indices yield `undefined`.  `hashCache` is the insertion-ordered `Map` of
memoized hash index lists. -/
structure Filter where
  params : HashParams
  bits : List JsValue
  props : List Int
  hashCache : List (String × List Int)
  expectedElements : JsValue

/-- Lookup in the insertion-ordered cache (the `Map.has` / `Map.get` pair). -/
def cacheLookup (s : String) : List (String × List Int) → Option (List Int)
  | [] => none
  | (k, v) :: rest => if k = s then some v else cacheLookup s rest

/-- `BloomFilter.getHashes`: serialize, consult the cache, otherwise
compute and insert, evicting the oldest entry at capacity. -/
def getHashes (f : Filter) (e : JsElem) : List Int × Filter :=
  let s := serializeElement e
  match cacheLookup s f.hashCache with
  | some hs => (hs, f)
  | none =>
    let hs := generateHashesEfficiently f.params s
    let cache := if MAX_CACHE_SIZE ≤ f.hashCache.length then f.hashCache.tail else f.hashCache
    (hs, { f with hashCache := cache ++ [(s, hs)] })

/-- Read `bitArray[i]`: an element for in-range indices, the out-of-band
property (always `1` once written) otherwise, `none` meaning `undefined`. -/
def readBit (f : Filter) (i : Int) : Option JsValue :=
  if 0 ≤ i ∧ i < (f.bits.length : Int) then some (f.bits.getD i.toNat (.num 0))
  else if i ∈ f.props then some (.num 1) else none

/-- Write `bitArray[i] = 1`. -/
def writeBit (f : Filter) (i : Int) : Filter :=
  if 0 ≤ i ∧ i < (f.bits.length : Int) then { f with bits := f.bits.set i.toNat (.num 1) }
  else if i ∈ f.props then f else { f with props := f.props ++ [i] }

/-- `bitArray[hash] === 0` — the only bit test `has` performs. -/
def bitIsZero (o : Option JsValue) : Bool :=
  match o with
  | some v => strictEqZero v
  | none => false

/-- `BloomFilter.has`: every hash position must be different from the
number 0 (an `undefined` read at an out-of-range index also passes). -/
def hasOp (f : Filter) (e : JsElem) : Bool × Filter :=
  ((getHashes f e).1.all (fun h => !(bitIsZero (readBit (getHashes f e).2 h))),
   (getHashes f e).2)

/-- `BloomFilter.add`: implicit `has` check first; on a miss, set every
hash position to 1 and report `true`. -/
def addOp (f : Filter) (e : JsElem) : Bool × Filter :=
  if (hasOp f e).1 then (false, (hasOp f e).2)
  else
    (true, (getHashes (hasOp f e).2 e).1.foldl writeBit (getHashes (hasOp f e).2 e).2)

/-- `BloomFilter.addAll`: sequential `add`, counting the `true` returns. -/
def addAllOp (f : Filter) (es : List JsElem) : Nat × Filter :=
  es.foldl
    (fun acc e =>
      (acc.1 + (if (addOp acc.2 e).1 then 1 else 0), (addOp acc.2 e).2))
    (0, f)

/-- `BloomFilter.clearCache`. -/
def clearCacheOp (f : Filter) : Filter := { f with hashCache := [] }

end BloomModel

namespace BloomModel

/-- The (runtime-untyped) state object handed to the filter's state
instantiation method; each field is an arbitrary JavaScript value. -/
structure JsFilterState where
  size : JsValue
  numberOfHashFunctions : JsValue
  bitArray : JsValue
  expectedElements : JsValue

/-- The message of the `InvalidState` error thrown by the source. -/
def invalidStateMsg : String := "Invalid bloom filter state"

/-- `BloomFilter.import`: reject a null/undefined state, a non-array bit
sequence, or non-number `size` / `numberOfHashFunctions`; otherwise copy
the fields in, drop any out-of-band array properties (a fresh array is
made), restore `expectedElements` only when truthy, and clear the hash
cache.  The hashing backend is untouched. -/
def importOp (f : Filter) (state : Option JsFilterState) : Except String Filter :=
  match state with
  | none => .error invalidStateMsg
  | some st =>
    if ¬ isArrayVal st.bitArray ∨ ¬ isNumberVal st.size
        ∨ ¬ isNumberVal st.numberOfHashFunctions then
      .error invalidStateMsg
    else
      .ok { f with
        params := { f.params with
          size := numOf st.size
          numberOfHashFunctions := numOf st.numberOfHashFunctions }
        bits := elemsOf st.bitArray
        props := []
        expectedElements :=
          if truthyVal st.expectedElements then st.expectedElements else f.expectedElements
        hashCache := [] }

/-- Filter operations a caller can interleave (state mutations via the
public surface, excluding state instantiation and reset). -/
inductive FOp where
  | opHas (e : JsElem)
  | opAdd (e : JsElem)
  | opAddAll (es : List JsElem)
  | opClear

/-- Observable return value of one operation (`clearCache` returns void
and produces no observable). -/
inductive Obs where
  | obool (b : Bool)
  | onat (n : Nat)
deriving DecidableEq

/-- Run one operation, returning its observable output (if any) and the
successor filter state. -/
def stepOut (f : Filter) : FOp → Option Obs × Filter
  | .opHas e => (some (.obool (hasOp f e).1), (hasOp f e).2)
  | .opAdd e => (some (.obool (addOp f e).1), (addOp f e).2)
  | .opAddAll es => (some (.onat (addAllOp f es).1), (addAllOp f es).2)
  | .opClear => (none, clearCacheOp f)

/-- The successor state of one operation. -/
def step (f : Filter) (op : FOp) : Filter := (stepOut f op).2

/-- Run a sequence of operations, final state only. -/
def runOps (f : Filter) (ops : List FOp) : Filter := ops.foldl step f

/-- Run a sequence of operations, collecting the observable outputs. -/
def runOuts (f : Filter) : List FOp → List Obs × Filter
  | [] => ([], f)
  | op :: rest =>
    ((stepOut f op).1.toList ++ (runOuts (stepOut f op).2 rest).1,
     (runOuts (stepOut f op).2 rest).2)

/-- The hash positions of an element as dictated by the filter parameters
alone (what `getHashes` computes on a cache miss). -/
def trueHashes (f : Filter) (e : JsElem) : List Int :=
  generateHashesEfficiently f.params (serializeElement e)

/-- Coherence of the memoization cache: every cached entry equals the
hash list the current parameters would recompute for its key.  Entries
are only ever inserted with freshly computed values and a state import or
reset clears the cache, but this does NOT hold of every reachable state:
the asynchronous `initXXHash` assignment swaps the hashing backend
without touching the cache (see `initXXHashOp` below), leaving stale
crypto-era entries under the xx backend. -/
def Coherent (f : Filter) : Prop :=
  ∀ s hs, (s, hs) ∈ f.hashCache → hs = generateHashesEfficiently f.params s

theorem cacheLookup_mem {s : String} {l : List (String × List Int)} {v : List Int}
    (h : cacheLookup s l = some v) : (s, v) ∈ l := by
  induction l with
  | nil => simp [cacheLookup] at h
  | cons p rest ih =>
    obtain ⟨k, w⟩ := p
    by_cases hk : k = s
    · subst hk
      simp [cacheLookup] at h
      simp [h]
    · simp [cacheLookup, hk] at h
      exact List.mem_cons_of_mem _ (ih h)

theorem getHashes_fst {f : Filter} (e : JsElem) (hc : Coherent f) :
    (getHashes f e).1 = trueHashes f e := by
  unfold getHashes trueHashes
  cases hl : cacheLookup (serializeElement e) f.hashCache with
  | none => simp [hl]
  | some hs =>
    simp only [hl]
    exact hc _ _ (cacheLookup_mem hl)

theorem getHashes_params (f : Filter) (e : JsElem) : (getHashes f e).2.params = f.params := by
  unfold getHashes
  cases hl : cacheLookup (serializeElement e) f.hashCache <;> simp [hl]

theorem getHashes_bits (f : Filter) (e : JsElem) : (getHashes f e).2.bits = f.bits := by
  unfold getHashes
  cases hl : cacheLookup (serializeElement e) f.hashCache <;> simp [hl]

theorem getHashes_props (f : Filter) (e : JsElem) : (getHashes f e).2.props = f.props := by
  unfold getHashes
  cases hl : cacheLookup (serializeElement e) f.hashCache <;> simp [hl]

theorem getHashes_expectedElements (f : Filter) (e : JsElem) :
    (getHashes f e).2.expectedElements = f.expectedElements := by
  unfold getHashes
  cases hl : cacheLookup (serializeElement e) f.hashCache <;> simp [hl]

theorem coherent_tail {f : Filter} (hc : Coherent f) :
    ∀ s hs, (s, hs) ∈ f.hashCache.tail → hs = generateHashesEfficiently f.params s :=
  fun s hs hm => hc s hs (List.mem_of_mem_tail hm)

theorem getHashes_coherent {f : Filter} (e : JsElem) (hc : Coherent f) :
    Coherent (getHashes f e).2 := by
  intro s hs hm
  rw [getHashes_params]
  unfold getHashes at hm
  cases hl : cacheLookup (serializeElement e) f.hashCache with
  | some v =>
    simp only [hl] at hm
    exact hc s hs hm
  | none =>
    simp only [hl, List.mem_append] at hm
    rcases hm with hm | hm
    · by_cases hcap : MAX_CACHE_SIZE ≤ f.hashCache.length
      · rw [if_pos hcap] at hm
        exact coherent_tail hc s hs hm
      · rw [if_neg hcap] at hm
        exact hc s hs hm
    · simp at hm
      rw [hm.1, hm.2]

end BloomModel

namespace BloomModel

/-- A probe of one bit position: true when the `=== 0` test does not fire
(so `has` does not report definite absence because of this position). -/
def probe (f : Filter) (i : Int) : Bool := !(bitIsZero (readBit f i))

theorem readBit_congr {f g : Filter} (hb : f.bits = g.bits) (hp : f.props = g.props)
    (i : Int) : readBit f i = readBit g i := by
  simp [readBit, hb, hp]

theorem probe_congr {f g : Filter} (hb : f.bits = g.bits) (hp : f.props = g.props)
    (i : Int) : probe f i = probe g i := by
  simp [probe, readBit_congr hb hp]

theorem getD_set_self {α : Type} (l : List α) (j : Nat) (v d : α) (h : j < l.length) :
    (l.set j v).getD j d = v := by
  induction l generalizing j with
  | nil => simp at h
  | cons a rest ih =>
    cases j with
    | zero => simp
    | succ j' =>
      simp only [List.set, List.getD, List.get?]
      exact ih j' (by simpa using h)

theorem getD_set_other {α : Type} (l : List α) (i j : Nat) (v d : α) (h : j ≠ i) :
    (l.set j v).getD i d = l.getD i d := by
  induction l generalizing i j with
  | nil => simp
  | cons a rest ih =>
    cases j with
    | zero =>
      cases i with
      | zero => exact absurd rfl h
      | succ i' => simp [List.set, List.getD]
    | succ j' =>
      cases i with
      | zero => simp [List.set, List.getD]
      | succ i' =>
        simp only [List.set, List.getD, List.get?]
        exact ih i' j' (fun hne => h (by rw [hne]))

theorem writeBit_params (f : Filter) (i : Int) : (writeBit f i).params = f.params := by
  unfold writeBit
  by_cases h : 0 ≤ i ∧ i < (f.bits.length : Int)
  · rw [if_pos h]
  · rw [if_neg h]
    by_cases h2 : i ∈ f.props
    · rw [if_pos h2]
    · rw [if_neg h2]

theorem writeBit_hashCache (f : Filter) (i : Int) :
    (writeBit f i).hashCache = f.hashCache := by
  unfold writeBit
  by_cases h : 0 ≤ i ∧ i < (f.bits.length : Int)
  · rw [if_pos h]
  · rw [if_neg h]
    by_cases h2 : i ∈ f.props
    · rw [if_pos h2]
    · rw [if_neg h2]

theorem writeBit_bits_length (f : Filter) (i : Int) :
    (writeBit f i).bits.length = f.bits.length := by
  unfold writeBit
  by_cases h : 0 ≤ i ∧ i < (f.bits.length : Int)
  · rw [if_pos h]; simp
  · rw [if_neg h]
    by_cases h2 : i ∈ f.props
    · rw [if_pos h2]
    · rw [if_neg h2]

/-- Writing a position makes its probe pass: the read afterwards yields
the number 1 whether the index was in range or stored as a property. -/
theorem readBit_writeBit_self (f : Filter) (i : Int) :
    readBit (writeBit f i) i = some (.num 1) := by
  unfold writeBit
  by_cases h : 0 ≤ i ∧ i < (f.bits.length : Int)
  · rw [if_pos h]
    have hin : 0 ≤ i ∧ i < (((f.bits.set i.toNat (.num 1)).length : Nat) : Int) := by
      simpa using h
    rw [readBit, if_pos hin]
    have hlt : i.toNat < f.bits.length := by
      rcases h with ⟨h0, h1⟩
      omega
    rw [getD_set_self _ _ _ _ hlt]
  · rw [if_neg h]
    by_cases h2 : i ∈ f.props
    · rw [if_pos h2, readBit, if_neg h, if_pos h2]
    · rw [if_neg h2, readBit]
      simp only [if_neg h]
      simp

theorem probe_writeBit_self (f : Filter) (i : Int) : probe (writeBit f i) i = true := by
  simp [probe, readBit_writeBit_self, bitIsZero, strictEqZero]

/-- An out-of-range position always probes true (its read is `undefined`
or the written property 1, never the number 0). -/
theorem probe_out_of_range {f : Filter} {i : Int}
    (h : ¬(0 ≤ i ∧ i < (f.bits.length : Int))) : probe f i = true := by
  rw [probe, readBit, if_neg h]
  by_cases h2 : i ∈ f.props
  · simp [h2, bitIsZero, strictEqZero]
  · simp [h2, bitIsZero]

/-- Probes are monotone under writes: a passing position keeps passing. -/
theorem probe_writeBit_mono {f : Filter} {i : Int} (j : Int) (h : probe f i = true) :
    probe (writeBit f j) i = true := by
  by_cases hj : 0 ≤ j ∧ j < (f.bits.length : Int)
  · by_cases hi : 0 ≤ i ∧ i < (f.bits.length : Int)
    · by_cases hij : i = j
      · subst hij
        exact probe_writeBit_self f i
      · have hin : 0 ≤ i ∧ i < (((writeBit f j).bits.length : Nat) : Int) := by
          rw [writeBit_bits_length]; exact_mod_cast hi
        rw [probe, readBit, if_pos hin]
        rw [writeBit, if_pos hj]
        have hne : j.toNat ≠ i.toNat := by
          intro hEq
          exact hij (by omega)
        simp only [getD_set_other _ _ _ _ _ hne]
        rw [probe, readBit, if_pos hi] at h
        exact h
    · have hi' : ¬(0 ≤ i ∧ i < (((writeBit f j).bits.length : Nat) : Int)) := by
        rw [writeBit_bits_length]; exact_mod_cast hi
      exact probe_out_of_range hi'
  · rw [writeBit, if_neg hj]
    by_cases h2 : j ∈ f.props
    · rw [if_pos h2]; exact h
    · rw [if_neg h2]
      by_cases hi : 0 ≤ i ∧ i < (f.bits.length : Int)
      · rw [probe, readBit] at h ⊢
        simp only [if_pos hi] at h ⊢
        exact h
      · show probe { f with props := f.props ++ [j] } i = true
        exact probe_out_of_range (by simpa using hi)

theorem probe_writeBits_mono {f : Filter} {i : Int} (hs : List Int) (h : probe f i = true) :
    probe (hs.foldl writeBit f) i = true := by
  induction hs generalizing f with
  | nil => exact h
  | cons a rest ih => exact ih (probe_writeBit_mono a h)

/-- After folding the writes, every written position probes true. -/
theorem probe_writeBits_self {hs : List Int} {i : Int} (f : Filter) (hm : i ∈ hs) :
    probe (hs.foldl writeBit f) i = true := by
  induction hs generalizing f with
  | nil => simp at hm
  | cons a rest ih =>
    rcases List.mem_cons.mp hm with h | h
    · subst h
      exact probe_writeBits_mono rest (probe_writeBit_self f i)
    · exact ih (writeBit f a) h

theorem writeBits_params (hs : List Int) (f : Filter) :
    (hs.foldl writeBit f).params = f.params := by
  induction hs generalizing f with
  | nil => rfl
  | cons a rest ih => rw [List.foldl_cons, ih, writeBit_params]

theorem writeBits_hashCache (hs : List Int) (f : Filter) :
    (hs.foldl writeBit f).hashCache = f.hashCache := by
  induction hs generalizing f with
  | nil => rfl
  | cons a rest ih => rw [List.foldl_cons, ih, writeBit_hashCache]

end BloomModel

namespace BloomModel

theorem coherent_of_core {f g : Filter} (hp : g.params = f.params)
    (hc : g.hashCache = f.hashCache) (h : Coherent f) : Coherent g := by
  intro s hs hm
  rw [hp]
  exact h s hs (hc ▸ hm)

theorem trueHashes_congr {f g : Filter} (h : f.params = g.params) (e : JsElem) :
    trueHashes f e = trueHashes g e := by
  rw [trueHashes, trueHashes, h]

theorem hasOp_fst {f : Filter} (e : JsElem) (hc : Coherent f) :
    (hasOp f e).1 = (trueHashes f e).all (fun i => probe f i) := by
  unfold hasOp
  rw [getHashes_fst e hc]
  simp only
  congr 1
  funext h
  rw [probe, readBit_congr (getHashes_bits f e) (getHashes_props f e)]

/-- The per-call invariant used for the no-false-negative proof: the cache
is coherent, the hash parameters are those of the starting filter, and
every target position probes true. -/
def Inv (p : HashParams) (targets : List Int) (f : Filter) : Prop :=
  Coherent f ∧ f.params = p ∧ ∀ i ∈ targets, probe f i = true

theorem inv_getHashes {p targets f} (e : JsElem) (h : Inv p targets f) :
    Inv p targets (getHashes f e).2 := by
  obtain ⟨hc, hp, ht⟩ := h
  refine ⟨getHashes_coherent e hc, by rw [getHashes_params, hp], fun i hi => ?_⟩
  rw [probe_congr (getHashes_bits f e) (getHashes_props f e)]
  exact ht i hi

theorem inv_writeBits {p targets f} (hs : List Int) (h : Inv p targets f) :
    Inv p targets (hs.foldl writeBit f) := by
  obtain ⟨hc, hp, ht⟩ := h
  refine ⟨coherent_of_core (writeBits_params hs f) (writeBits_hashCache hs f) hc,
    by rw [writeBits_params, hp], fun i hi => probe_writeBits_mono hs (ht i hi)⟩

theorem inv_hasOp {p targets f} (e : JsElem) (h : Inv p targets f) :
    Inv p targets (hasOp f e).2 := inv_getHashes e h

theorem hasOp_params (f : Filter) (e : JsElem) : (hasOp f e).2.params = f.params :=
  getHashes_params f e

theorem hasOp_bits (f : Filter) (e : JsElem) : (hasOp f e).2.bits = f.bits :=
  getHashes_bits f e

theorem hasOp_props (f : Filter) (e : JsElem) : (hasOp f e).2.props = f.props :=
  getHashes_props f e

theorem inv_addOp {p targets f} (e : JsElem) (h : Inv p targets f) :
    Inv p targets (addOp f e).2 := by
  unfold addOp
  by_cases hb : (hasOp f e).1
  · rw [if_pos hb]
    exact inv_hasOp e h
  · rw [if_neg hb]
    exact inv_writeBits _ (inv_getHashes e (inv_hasOp e h))

theorem inv_addAll {p targets} (es : List JsElem) : ∀ (n : Nat) (f : Filter),
    Inv p targets f →
    Inv p targets
      ((es.foldl
        (fun acc e =>
          (acc.1 + (if (addOp acc.2 e).1 then 1 else 0), (addOp acc.2 e).2))
        (n, f)).2) := by
  induction es with
  | nil => intro n f h; exact h
  | cons a rest ih =>
    intro n f h
    rw [List.foldl_cons]
    exact ih _ _ (inv_addOp a h)

theorem inv_step {p targets f} (op : FOp) (h : Inv p targets f) :
    Inv p targets (step f op) := by
  cases op with
  | opHas e => exact inv_hasOp e h
  | opAdd e => exact inv_addOp e h
  | opAddAll es => exact inv_addAll es 0 f h
  | opClear =>
    obtain ⟨hc, hp, ht⟩ := h
    exact ⟨fun s hs hm => by simp [step, stepOut, clearCacheOp] at hm, hp, ht⟩

theorem inv_runOps {p targets f} (ops : List FOp) (h : Inv p targets f) :
    Inv p targets (runOps f ops) := by
  induction ops generalizing f with
  | nil => exact h
  | cons op rest ih => exact ih (inv_step op h)

/-- After a hit-reporting or a writing `add`, every hash position of the
added element probes true. -/
theorem addOp_probe_covers {f : Filter} (e : JsElem) (hc : Coherent f) :
    ∀ i ∈ trueHashes f e, probe (addOp f e).2 i = true := by
  intro i hi
  unfold addOp
  by_cases hb : (hasOp f e).1
  · rw [if_pos hb]
    rw [hasOp_fst e hc] at hb
    have hpi := List.all_eq_true.mp hb i hi
    show probe (hasOp f e).2 i = true
    rw [probe_congr (hasOp_bits f e) (hasOp_props f e)]
    exact hpi
  · rw [if_neg hb]
    simp only
    have hc₁ : Coherent (hasOp f e).2 := getHashes_coherent e hc
    have hfst : (getHashes (hasOp f e).2 e).1 = trueHashes f e := by
      rw [getHashes_fst e hc₁]
      exact (trueHashes_congr (getHashes_params f e) e)
    rw [hfst]
    exact probe_writeBits_self _ hi

/--
C1 (amended).  No false negative provided the hashing backend does not
switch: once `add(e)` has been applied to a filter state whose
memoization cache is coherent with the hashing backend in effect (as
holds whenever the asynchronous xxhash initialization resolved before the
add, or never resolves), every subsequent `has(e)` after any interleaving
of further `has` / `add` / `addAll` / `clearCache` calls (no state import
or reset) returns true.  The unconditioned claim is false: an
asynchronous backend switch between the add and a later cache clear or
eviction yields a false negative (see the backend-switch counterexample
below).
-/
theorem bloom_add_no_false_negative (f : Filter) (e : JsElem) (ops : List FOp)
    (hc : Coherent f) :
    (hasOp (runOps (addOp f e).2 ops) e).1 = true := by
  have hInv : Inv f.params (trueHashes f e) (addOp f e).2 := by
    refine ⟨?_, ?_, addOp_probe_covers e hc⟩
    · unfold addOp
      by_cases hb : (hasOp f e).1
      · rw [if_pos hb]
        exact getHashes_coherent e hc
      · rw [if_neg hb]
        have h0 : Inv f.params [] f := ⟨hc, rfl, by simp⟩
        exact (inv_writeBits _ (inv_getHashes e (inv_hasOp e h0))).1
    · unfold addOp
      by_cases hb : (hasOp f e).1
      · rw [if_pos hb]
        exact hasOp_params f e
      · rw [if_neg hb]
        show ((getHashes (hasOp f e).2 e).1.foldl writeBit
          (getHashes (hasOp f e).2 e).2).params = f.params
        rw [writeBits_params, getHashes_params, hasOp_params]
  have hfin : Inv f.params (trueHashes f e) (runOps (addOp f e).2 ops) :=
    inv_runOps ops hInv
  obtain ⟨hcf, hpf, htf⟩ := hfin
  rw [hasOp_fst e hcf, trueHashes_congr hpf e]
  exact List.all_eq_true.mpr (fun i hi => htf i hi)

/-- Witness for C1 at a concrete filter, element and operation list. -/
theorem bloom_add_no_false_negative_witness :
    (hasOp
      (runOps
        (addOp
          { params :=
              { size := 8, numberOfHashFunctions := 2,
                hasher := .crypto (fun _ => List.replicate 32 0) },
            bits := List.replicate 8 (.num 0), props := [], hashCache := [],
            expectedElements := .num 1000 }
          (.str "alice")).2
        [.opHas (.str "bob"), .opAdd (.str "carol"), .opClear])
      (.str "alice")).1 = true :=
  bloom_add_no_false_negative _ (.str "alice") _ (fun s hs hm => by simp at hm)

end BloomModel

namespace BloomModel

/-- Equality of everything observable about a filter except the contents
of the hash memoization cache. -/
def SameCore (f g : Filter) : Prop :=
  f.params = g.params ∧ f.bits = g.bits ∧ f.props = g.props
    ∧ f.expectedElements = g.expectedElements

theorem sameCore_refl (f : Filter) : SameCore f f := ⟨rfl, rfl, rfl, rfl⟩

theorem sameCore_symm {f g : Filter} (h : SameCore f g) : SameCore g f :=
  ⟨h.1.symm, h.2.1.symm, h.2.2.1.symm, h.2.2.2.symm⟩

theorem sameCore_trans {f g k : Filter} (h : SameCore f g) (h' : SameCore g k) :
    SameCore f k :=
  ⟨h.1.trans h'.1, h.2.1.trans h'.2.1, h.2.2.1.trans h'.2.2.1, h.2.2.2.trans h'.2.2.2⟩

theorem getHashes_sameCore (f : Filter) (e : JsElem) : SameCore (getHashes f e).2 f :=
  ⟨getHashes_params f e, getHashes_bits f e, getHashes_props f e,
    getHashes_expectedElements f e⟩

theorem hasOp_fst_bisim {f g : Filter} (e : JsElem) (hcf : Coherent f) (hcg : Coherent g)
    (hsc : SameCore f g) : (hasOp f e).1 = (hasOp g e).1 := by
  rw [hasOp_fst e hcf, hasOp_fst e hcg, trueHashes_congr hsc.1 e]
  congr 1
  funext i
  rw [probe_congr hsc.2.1 hsc.2.2.1]

theorem hasOp_bisim {f g : Filter} (e : JsElem) (hcf : Coherent f) (hcg : Coherent g)
    (hsc : SameCore f g) :
    (hasOp f e).1 = (hasOp g e).1 ∧ SameCore (hasOp f e).2 (hasOp g e).2
      ∧ Coherent (hasOp f e).2 ∧ Coherent (hasOp g e).2 :=
  ⟨hasOp_fst_bisim e hcf hcg hsc,
   sameCore_trans (getHashes_sameCore f e) (sameCore_trans hsc
     (sameCore_symm (getHashes_sameCore g e))),
   getHashes_coherent e hcf, getHashes_coherent e hcg⟩

theorem writeBit_bisim {f g : Filter} (hsc : SameCore f g) (i : Int) :
    SameCore (writeBit f i) (writeBit g i) := by
  obtain ⟨hp, hb, hpr, he⟩ := hsc
  by_cases hin : 0 ≤ i ∧ i < (g.bits.length : Int)
  · have hinf : 0 ≤ i ∧ i < (f.bits.length : Int) := by rw [hb]; exact hin
    rw [writeBit, if_pos hinf, writeBit, if_pos hin]
    exact ⟨hp, by rw [hb], hpr, he⟩
  · have hinf : ¬(0 ≤ i ∧ i < (f.bits.length : Int)) := by rw [hb]; exact hin
    rw [writeBit, if_neg hinf, writeBit, if_neg hin]
    by_cases hm : i ∈ g.props
    · have hmf : i ∈ f.props := by rw [hpr]; exact hm
      rw [if_pos hmf, if_pos hm]
      exact ⟨hp, hb, hpr, he⟩
    · have hmf : i ∉ f.props := by rw [hpr]; exact hm
      rw [if_neg hmf, if_neg hm]
      exact ⟨hp, hb, by rw [hpr], he⟩

theorem writeBits_bisim {f g : Filter} (hs : List Int) (hsc : SameCore f g) :
    SameCore (hs.foldl writeBit f) (hs.foldl writeBit g) := by
  induction hs generalizing f g with
  | nil => exact hsc
  | cons a rest ih => exact ih (writeBit_bisim hsc a)

theorem addOp_bisim {f g : Filter} (e : JsElem) (hcf : Coherent f) (hcg : Coherent g)
    (hsc : SameCore f g) :
    (addOp f e).1 = (addOp g e).1 ∧ SameCore (addOp f e).2 (addOp g e).2
      ∧ Coherent (addOp f e).2 ∧ Coherent (addOp g e).2 := by
  obtain ⟨hfst, hsnd, hcf', hcg'⟩ := hasOp_bisim e hcf hcg hsc
  unfold addOp
  by_cases hb : (hasOp f e).1
  · rw [if_pos hb, if_pos (hfst ▸ hb)]
    exact ⟨rfl, hsnd, hcf', hcg'⟩
  · have hbg : ¬(hasOp g e).1 = true := fun h => hb (by rw [hfst, h])
    rw [if_neg hb, if_neg hbg]
    have hlf : (getHashes (hasOp f e).2 e).1 = trueHashes f e := by
      rw [getHashes_fst e hcf', trueHashes_congr (hasOp_params f e) e]
    have hlg : (getHashes (hasOp g e).2 e).1 = trueHashes f e := by
      rw [getHashes_fst e hcg', trueHashes_congr (hasOp_params g e) e,
        trueHashes_congr hsc.1 e]
    have hscg : SameCore (getHashes (hasOp f e).2 e).2 (getHashes (hasOp g e).2 e).2 :=
      sameCore_trans (getHashes_sameCore _ e)
        (sameCore_trans hsnd (sameCore_symm (getHashes_sameCore _ e)))
    refine ⟨rfl, ?_, ?_, ?_⟩
    · rw [hlf, hlg]
      exact writeBits_bisim _ hscg
    · exact coherent_of_core (writeBits_params _ _) (writeBits_hashCache _ _)
        (getHashes_coherent e hcf')
    · exact coherent_of_core (writeBits_params _ _) (writeBits_hashCache _ _)
        (getHashes_coherent e hcg')

theorem addAllFold_bisim (es : List JsElem) : ∀ (n : Nat) (f g : Filter),
    Coherent f → Coherent g → SameCore f g →
    (es.foldl
        (fun acc e =>
          (acc.1 + (if (addOp acc.2 e).1 then 1 else 0), (addOp acc.2 e).2))
        (n, f)).1 =
      (es.foldl
        (fun acc e =>
          (acc.1 + (if (addOp acc.2 e).1 then 1 else 0), (addOp acc.2 e).2))
        (n, g)).1
    ∧ SameCore
        (es.foldl
          (fun acc e =>
            (acc.1 + (if (addOp acc.2 e).1 then 1 else 0), (addOp acc.2 e).2))
          (n, f)).2
        (es.foldl
          (fun acc e =>
            (acc.1 + (if (addOp acc.2 e).1 then 1 else 0), (addOp acc.2 e).2))
          (n, g)).2
    ∧ Coherent
        (es.foldl
          (fun acc e =>
            (acc.1 + (if (addOp acc.2 e).1 then 1 else 0), (addOp acc.2 e).2))
          (n, f)).2
    ∧ Coherent
        (es.foldl
          (fun acc e =>
            (acc.1 + (if (addOp acc.2 e).1 then 1 else 0), (addOp acc.2 e).2))
          (n, g)).2 := by
  induction es with
  | nil =>
    intro n f g hcf hcg hsc
    exact ⟨rfl, hsc, hcf, hcg⟩
  | cons a rest ih =>
    intro n f g hcf hcg hsc
    obtain ⟨hfst, hsnd, hcf', hcg'⟩ := addOp_bisim a hcf hcg hsc
    rw [List.foldl_cons, List.foldl_cons]
    simp only [hfst]
    exact ih _ _ _ hcf' hcg' hsnd

theorem addAllOp_bisim {f g : Filter} (es : List JsElem) (hcf : Coherent f)
    (hcg : Coherent g) (hsc : SameCore f g) :
    (addAllOp f es).1 = (addAllOp g es).1 ∧ SameCore (addAllOp f es).2 (addAllOp g es).2
      ∧ Coherent (addAllOp f es).2 ∧ Coherent (addAllOp g es).2 :=
  addAllFold_bisim es 0 f g hcf hcg hsc

theorem stepOut_bisim {f g : Filter} (op : FOp) (hcf : Coherent f) (hcg : Coherent g)
    (hsc : SameCore f g) :
    (stepOut f op).1 = (stepOut g op).1 ∧ SameCore (stepOut f op).2 (stepOut g op).2
      ∧ Coherent (stepOut f op).2 ∧ Coherent (stepOut g op).2 := by
  cases op with
  | opHas e =>
    obtain ⟨hfst, hsnd, h1, h2⟩ := hasOp_bisim e hcf hcg hsc
    exact ⟨by rw [stepOut, stepOut, hfst], hsnd, h1, h2⟩
  | opAdd e =>
    obtain ⟨hfst, hsnd, h1, h2⟩ := addOp_bisim e hcf hcg hsc
    exact ⟨by rw [stepOut, stepOut, hfst], hsnd, h1, h2⟩
  | opAddAll es =>
    obtain ⟨hfst, hsnd, h1, h2⟩ := addAllOp_bisim es hcf hcg hsc
    exact ⟨by rw [stepOut, stepOut, hfst], hsnd, h1, h2⟩
  | opClear =>
    refine ⟨rfl, ⟨hsc.1, hsc.2.1, hsc.2.2.1, hsc.2.2.2⟩, ?_, ?_⟩
    · intro s hs hm
      simp [stepOut, clearCacheOp] at hm
    · intro s hs hm
      simp [stepOut, clearCacheOp] at hm

theorem runOuts_bisim (ops : List FOp) : ∀ {f g : Filter}, Coherent f → Coherent g →
    SameCore f g →
    (runOuts f ops).1 = (runOuts g ops).1 ∧ SameCore (runOuts f ops).2 (runOuts g ops).2 := by
  induction ops with
  | nil =>
    intro f g _ _ hsc
    exact ⟨rfl, hsc⟩
  | cons op rest ih =>
    intro f g hcf hcg hsc
    obtain ⟨hfst, hsnd, h1, h2⟩ := stepOut_bisim op hcf hcg hsc
    obtain ⟨ho, hs⟩ := ih h1 h2 hsnd
    rw [runOuts, runOuts]
    exact ⟨by rw [hfst, ho], hs⟩

theorem runOuts_append (l₁ l₂ : List FOp) : ∀ f : Filter,
    runOuts f (l₁ ++ l₂) =
      ((runOuts f l₁).1 ++ (runOuts (runOuts f l₁).2 l₂).1,
       (runOuts (runOuts f l₁).2 l₂).2) := by
  induction l₁ with
  | nil => intro f; simp [runOuts]
  | cons op rest ih =>
    intro f
    rw [List.cons_append, runOuts, runOuts, ih]
    simp [List.append_assoc]

theorem runOuts_snd_coherent (ops : List FOp) {f : Filter} (hc : Coherent f) :
    Coherent (runOuts f ops).2 := by
  induction ops generalizing f with
  | nil => exact hc
  | cons op rest ih =>
    rw [runOuts]
    exact ih ((stepOut_bisim op hc hc (sameCore_refl f)).2.2.1)

/--
C8 (amended).  Clearing the bounded hash-memoization cache never changes
observable behaviour provided every cache entry agrees with what the
current hashing backend would recompute (a coherent cache, as holds
whenever the backend has not switched since the entries were cached): for
every such filter state and every sequence of `has` / `add` / `addAll`
calls, inserting a `clearCache` between any two calls leaves every call
result and the final bit-array state (in-range bits and out-of-band
properties) unchanged.  The unconditioned claim is false: after the
asynchronous backend switch leaves stale entries, clearing the cache
changes `has` answers (see the counterexample below).
-/
theorem bloom_clearCache_unobservable (f : Filter) (hc : Coherent f)
    (ops₁ ops₂ : List FOp) :
    (runOuts f (ops₁ ++ FOp.opClear :: ops₂)).1 = (runOuts f (ops₁ ++ ops₂)).1
    ∧ (runOuts f (ops₁ ++ FOp.opClear :: ops₂)).2.bits = (runOuts f (ops₁ ++ ops₂)).2.bits
    ∧ (runOuts f (ops₁ ++ FOp.opClear :: ops₂)).2.props
        = (runOuts f (ops₁ ++ ops₂)).2.props := by
  have hc₁ : Coherent (runOuts f ops₁).2 := runOuts_snd_coherent ops₁ hc
  have hcc : Coherent (clearCacheOp (runOuts f ops₁).2) := by
    intro s hs hm
    simp [clearCacheOp] at hm
  have hscc : SameCore (clearCacheOp (runOuts f ops₁).2) (runOuts f ops₁).2 :=
    ⟨rfl, rfl, rfl, rfl⟩
  obtain ⟨ho, hs⟩ := runOuts_bisim ops₂ hcc hc₁ hscc
  rw [runOuts_append ops₁ (FOp.opClear :: ops₂) f, runOuts_append ops₁ ops₂ f]
  rw [runOuts]
  refine ⟨?_, ?_, ?_⟩
  · show (runOuts f ops₁).1 ++ ((stepOut (runOuts f ops₁).2 .opClear).1.toList
      ++ (runOuts (stepOut (runOuts f ops₁).2 .opClear).2 ops₂).1)
        = (runOuts f ops₁).1 ++ (runOuts (runOuts f ops₁).2 ops₂).1
    rw [stepOut]
    simp only [Option.toList, List.nil_append]
    rw [ho]
  · show (runOuts (stepOut (runOuts f ops₁).2 .opClear).2 ops₂).2.bits
      = (runOuts (runOuts f ops₁).2 ops₂).2.bits
    rw [stepOut]
    exact hs.2.1
  · show (runOuts (stepOut (runOuts f ops₁).2 .opClear).2 ops₂).2.props
      = (runOuts (runOuts f ops₁).2 ops₂).2.props
    rw [stepOut]
    exact hs.2.2.1

/-- Witness for C8 at a concrete filter and concrete call sequences. -/
theorem bloom_clearCache_unobservable_witness :
    (runOuts
        { params :=
            { size := 8, numberOfHashFunctions := 2,
              hasher := .crypto (fun _ => List.replicate 32 0) },
          bits := List.replicate 8 (.num 0), props := [], hashCache := [],
          expectedElements := .num 1000 }
        ([.opAdd (.str "alice")] ++ FOp.opClear :: [.opHas (.str "alice")])).1 =
      (runOuts
        { params :=
            { size := 8, numberOfHashFunctions := 2,
              hasher := .crypto (fun _ => List.replicate 32 0) },
          bits := List.replicate 8 (.num 0), props := [], hashCache := [],
          expectedElements := .num 1000 }
        ([.opAdd (.str "alice")] ++ [.opHas (.str "alice")])).1 :=
  (bloom_clearCache_unobservable _ (fun s hs hm => by simp at hm)
    [.opAdd (.str "alice")] [.opHas (.str "alice")]).1

end BloomModel

namespace BloomModel

/-- A concrete crypto-fallback hashing backend (the external SHA-256 is a
parameter; here a constant digest suffices). -/
def sampleHasher : Hasher := .crypto (fun _ => List.replicate 32 0)

/-- A concrete filter state used by the closed instances below. -/
def sampleFilter : Filter :=
  { params := { size := 8, numberOfHashFunctions := 2, hasher := sampleHasher },
    bits := List.replicate 8 (.num 0), props := [],
    hashCache := [("cached", [0, 1])], expectedElements := .num 1000 }

/-- A state value whose bit-sequence length (1) differs from its size
field (5): the shape the claim says the import must reject. -/
def mismatchedState : JsFilterState :=
  { size := .num 5, numberOfHashFunctions := .num 3,
    bitArray := .arrv [.num 1], expectedElements := .undefv }

/--
C5 counterexample.  A state value whose bit-sequence length (1) differs
from its size field (5) is accepted by the state import: the import
succeeds (returning the updated filter with the cleared cache) instead of
failing with the InvalidState error the claim requires.
-/
theorem bloom_import_length_mismatch_accepted :
    ((elemsOf mismatchedState.bitArray).length : Int) ≠ numOf mismatchedState.size
    ∧ importOp sampleFilter (some mismatchedState) =
        .ok { params := { size := 5, numberOfHashFunctions := 3, hasher := sampleHasher },
              bits := [.num 1], props := [], hashCache := [],
              expectedElements := .num 1000 } := by
  exact ⟨by decide, rfl⟩

/--
C5 (amended).  The state import fails with the InvalidState error exactly
when the state is null/undefined, the bit sequence is not an array, or the
size or hash-count field is not of number type; the bit-sequence length is
never compared against the size field and positivity is not checked.  On
every successful import the hash-result cache is cleared.
-/
theorem bloom_import_validation (f : Filter) (st : Option JsFilterState) :
    (importOp f st = .error invalidStateMsg ↔
      (st = none ∨ ∃ s, st = some s ∧
        (¬ isArrayVal s.bitArray = true ∨ ¬ isNumberVal s.size = true
          ∨ ¬ isNumberVal s.numberOfHashFunctions = true)))
    ∧ ∀ f', importOp f st = .ok f' → f'.hashCache = [] := by
  cases st with
  | none =>
    constructor
    · simp [importOp]
    · intro f' h
      simp [importOp] at h
  | some s =>
    by_cases hcond : ¬ isArrayVal s.bitArray = true ∨ ¬ isNumberVal s.size = true
        ∨ ¬ isNumberVal s.numberOfHashFunctions = true
    · constructor
      · rw [importOp, if_pos hcond]
        exact iff_of_true rfl (Or.inr ⟨s, rfl, hcond⟩)
      · intro f' h
        rw [importOp, if_pos hcond] at h
        cases h
    · constructor
      · rw [importOp, if_neg hcond]
        constructor
        · intro h
          cases h
        · rintro (h | ⟨s', hs', hdisj⟩)
          · cases h
          · cases Option.some.inj hs'
            exact absurd hdisj hcond
      · intro f' h
        rw [importOp, if_neg hcond] at h
        injection h with h'
        rw [← h']

/-- Closed instance of the amended C5 theorem at a concrete filter and
state value. -/
theorem bloom_import_validation_witness :
    (importOp sampleFilter (some mismatchedState) = .error invalidStateMsg ↔
      (some mismatchedState = none ∨ ∃ s, some mismatchedState = some s ∧
        (¬ isArrayVal s.bitArray = true ∨ ¬ isNumberVal s.size = true
          ∨ ¬ isNumberVal s.numberOfHashFunctions = true)))
    ∧ ∀ f', importOp sampleFilter (some mismatchedState) = .ok f' → f'.hashCache = [] :=
  bloom_import_validation sampleFilter (some mismatchedState)

/-- The SHA-256 digest of the one-byte string "a", as the external crypto
module computes it (ca978112ca1bbdcafac231b39a23dc4da786eff8147c4e72b9807785afee48bb). -/
def sha256_of_a : List Nat :=
  [0xca, 0x97, 0x81, 0x12, 0xca, 0x1b, 0xbd, 0xca,
   0xfa, 0xc2, 0x31, 0xb3, 0x9a, 0x23, 0xdc, 0x4d,
   0xa7, 0x86, 0xef, 0xf8, 0x14, 0x7c, 0x4e, 0x72,
   0xb9, 0x80, 0x77, 0x85, 0xaf, 0xee, 0x48, 0xbb]

/-- A fresh size-10, one-hash-function filter on the crypto fallback path,
with the external digest pinned at the value SHA-256 yields for "a". -/
def cryptoDemoFilter : Filter :=
  { params :=
      { size := 10
        numberOfHashFunctions := 1
        hasher := .crypto (fun _ => sha256_of_a) }
    bits := List.replicate 10 (.num 0)
    props := []
    hashCache := []
    expectedElements := .num 1000 }

/--
C10.  The crypto fallback path violates the in-bounds property: because
the four digest bytes are combined with JavaScript's signed 32-bit shifts
and or, an element whose digest starts with a byte of 0x80 or more yields
a negative 32-bit value, and the JavaScript remainder keeps its sign.  For
the element "a" (digest byte 0 is 0xca) with size 10 and one hash
function, the computed bit index is -6, outside the claimed range
0 ≤ index < 10; on a completely zeroed fresh filter, `has("a")` even
returns true, because the read at index -6 yields undefined rather than 0.
-/
theorem bloom_crypto_hash_out_of_range :
    generateCryptoHashes sha256_of_a 1 10 = [-6]
    ∧ ¬ (0 ≤ (-6 : Int))
    ∧ cryptoDemoFilter.bits = List.replicate 10 (.num 0)
    ∧ (hasOp cryptoDemoFilter (.str "a")).1 = true := by
  refine ⟨by decide, by decide, rfl, ?_⟩
  decide

/-- The xxhash path, by contrast, always produces indices in range when
the size is positive: the external 64-bit hash is a nonnegative integer
and the remainder of a nonnegative dividend by a positive divisor lies in
the claimed interval. -/
theorem generateXXHashes_in_bounds (h64 : String → Nat → Nat) (input : String)
    (k : Int) (size : Int) (hsize : 0 < size) :
    ∀ i ∈ generateXXHashes h64 input k size, 0 ≤ i ∧ i < size := by
  intro i hi
  simp only [generateXXHashes, List.mem_map, List.mem_range] at hi
  obtain ⟨j, _, rfl⟩ := hi
  exact ⟨Int.tmod_nonneg _ (Int.ofNat_nonneg _), Int.tmod_lt_of_pos _ hsize⟩

end BloomModel

namespace CryptoModel

/-- Fixed field lengths of the encrypted blob (`saltLength`, `ivLength`,
`authTagLength` in the source). -/
def SALT_LENGTH : Nat := 64

def IV_LENGTH : Nat := 16

def AUTH_TAG_LENGTH : Nat := 16

/-- The external cryptographic primitives the codec calls into: PBKDF2
key derivation, the AES-256-GCM cipher (returning ciphertext and
authentication tag; decryption returns none when the tag check fails) and
the base64 byte/text codec of `Buffer`.  All of them live outside the
repository; the code under verification is the plumbing around them. -/
structure CryptoPrims where
  pbkdf2 : String → List Nat → List Nat
  aeadEncrypt : List Nat → List Nat → List Nat → List Nat × List Nat
  aeadDecrypt : List Nat → List Nat → List Nat → List Nat → Option (List Nat)
  toBase64 : List Nat → String
  fromBase64 : String → List Nat

/-- `Buffer.subarray(start, end)`: the bytes in positions
`start ≤ j < end`. -/
def jsSubarray (b : List Nat) (s e : Nat) : List Nat := (b.drop s).take (e - s)

/-- `Encryption.encrypt`: derive the key from the password and the fresh
salt, encrypt under the fresh iv, and emit
`base64(salt || iv || authTag || ciphertext)`.  The two random draws
(salt and iv) are parameters, being external entropy. -/
def encryptModel (P : CryptoPrims) (data : List Nat) (password : String)
    (salt iv : List Nat) : String :=
  P.toBase64
    (salt ++ iv ++ (P.aeadEncrypt (P.pbkdf2 password salt) iv data).2
      ++ (P.aeadEncrypt (P.pbkdf2 password salt) iv data).1)

/-- The field extraction `decrypt` performs: base64-decode, then split at
the fixed offsets 0..64 (salt), 64..80 (iv), 80..96 (authTag), 96..end
(ciphertext). -/
def decryptFields (P : CryptoPrims) (encryptedData : String) :
    List Nat × List Nat × List Nat × List Nat :=
  (jsSubarray (P.fromBase64 encryptedData) 0 SALT_LENGTH,
   jsSubarray (P.fromBase64 encryptedData) SALT_LENGTH (SALT_LENGTH + IV_LENGTH),
   jsSubarray (P.fromBase64 encryptedData) (SALT_LENGTH + IV_LENGTH)
     (SALT_LENGTH + IV_LENGTH + AUTH_TAG_LENGTH),
   (P.fromBase64 encryptedData).drop (SALT_LENGTH + IV_LENGTH + AUTH_TAG_LENGTH))

/-- `Encryption.decrypt`: split the blob, re-derive the key from the
embedded salt, and run authenticated decryption; `none` models the thrown
decryption failure. -/
def decryptModel (P : CryptoPrims) (encryptedData : String) (password : String) :
    Option (List Nat) :=
  P.aeadDecrypt (P.pbkdf2 password (decryptFields P encryptedData).1)
    (decryptFields P encryptedData).2.1
    (decryptFields P encryptedData).2.2.1
    (decryptFields P encryptedData).2.2.2

theorem drop_append_of_length {α : Type} {a : List α} (b : List α) {n : Nat}
    (h : a.length = n) : (a ++ b).drop n = b := by
  subst h
  simp

theorem take_append_of_length {α : Type} {a : List α} (b : List α) {n : Nat}
    (h : a.length = n) : (a ++ b).take n = a := by
  subst h
  simp

theorem jsSubarray_first {a b : List Nat} {n : Nat} (h : a.length = n) :
    jsSubarray (a ++ b) 0 n = a := by
  rw [jsSubarray, List.drop_zero, Nat.sub_zero, take_append_of_length b h]

/--
C9.  Blob layout and split offsets: the string `encrypt` returns decodes
(from base64) to exactly `salt || iv || authTag || ciphertext` with a
64-byte salt, a 16-byte iv and a 16-byte authTag, and `decrypt` recovers
exactly those four fields, splitting its input at offsets 64, 80 and 96.
The hypotheses are the lengths of the external random draws and of the
GCM tag, and the byte-exactness of the external base64 codec on this
blob.
-/
theorem encrypt_blob_layout (P : CryptoPrims) (data : List Nat) (password : String)
    (salt iv : List Nat)
    (hsalt : salt.length = SALT_LENGTH) (hiv : iv.length = IV_LENGTH)
    (htag : (P.aeadEncrypt (P.pbkdf2 password salt) iv data).2.length = AUTH_TAG_LENGTH)
    (hb64 : P.fromBase64 (P.toBase64
        (salt ++ iv ++ (P.aeadEncrypt (P.pbkdf2 password salt) iv data).2
          ++ (P.aeadEncrypt (P.pbkdf2 password salt) iv data).1))
      = salt ++ iv ++ (P.aeadEncrypt (P.pbkdf2 password salt) iv data).2
          ++ (P.aeadEncrypt (P.pbkdf2 password salt) iv data).1) :
    P.fromBase64 (encryptModel P data password salt iv)
      = salt ++ iv ++ (P.aeadEncrypt (P.pbkdf2 password salt) iv data).2
          ++ (P.aeadEncrypt (P.pbkdf2 password salt) iv data).1
    ∧ decryptFields P (encryptModel P data password salt iv)
      = (salt, iv, (P.aeadEncrypt (P.pbkdf2 password salt) iv data).2,
         (P.aeadEncrypt (P.pbkdf2 password salt) iv data).1) := by
  have hblob : P.fromBase64 (encryptModel P data password salt iv)
      = salt ++ iv ++ (P.aeadEncrypt (P.pbkdf2 password salt) iv data).2
          ++ (P.aeadEncrypt (P.pbkdf2 password salt) iv data).1 := hb64
  refine ⟨hblob, ?_⟩
  rw [decryptFields, hblob]
  have h1 : jsSubarray
      (salt ++ iv ++ (P.aeadEncrypt (P.pbkdf2 password salt) iv data).2
        ++ (P.aeadEncrypt (P.pbkdf2 password salt) iv data).1) 0 SALT_LENGTH = salt := by
    rw [List.append_assoc, List.append_assoc]
    exact jsSubarray_first hsalt
  have hdrop1 : (salt ++ iv ++ (P.aeadEncrypt (P.pbkdf2 password salt) iv data).2
        ++ (P.aeadEncrypt (P.pbkdf2 password salt) iv data).1).drop SALT_LENGTH
      = iv ++ ((P.aeadEncrypt (P.pbkdf2 password salt) iv data).2
        ++ (P.aeadEncrypt (P.pbkdf2 password salt) iv data).1) := by
    rw [List.append_assoc, List.append_assoc]
    exact drop_append_of_length _ hsalt
  have h2 : jsSubarray
      (salt ++ iv ++ (P.aeadEncrypt (P.pbkdf2 password salt) iv data).2
        ++ (P.aeadEncrypt (P.pbkdf2 password salt) iv data).1)
      SALT_LENGTH (SALT_LENGTH + IV_LENGTH) = iv := by
    rw [jsSubarray, hdrop1, Nat.add_sub_cancel_left, take_append_of_length _ hiv]
  have hdrop2 : (salt ++ iv ++ (P.aeadEncrypt (P.pbkdf2 password salt) iv data).2
        ++ (P.aeadEncrypt (P.pbkdf2 password salt) iv data).1).drop (SALT_LENGTH + IV_LENGTH)
      = (P.aeadEncrypt (P.pbkdf2 password salt) iv data).2
        ++ (P.aeadEncrypt (P.pbkdf2 password salt) iv data).1 := by
    rw [← List.drop_drop, hdrop1, drop_append_of_length _ hiv]
  have h3 : jsSubarray
      (salt ++ iv ++ (P.aeadEncrypt (P.pbkdf2 password salt) iv data).2
        ++ (P.aeadEncrypt (P.pbkdf2 password salt) iv data).1)
      (SALT_LENGTH + IV_LENGTH) (SALT_LENGTH + IV_LENGTH + AUTH_TAG_LENGTH)
      = (P.aeadEncrypt (P.pbkdf2 password salt) iv data).2 := by
    rw [jsSubarray, hdrop2, Nat.add_sub_cancel_left, take_append_of_length _ htag]
  have h4 : (salt ++ iv ++ (P.aeadEncrypt (P.pbkdf2 password salt) iv data).2
        ++ (P.aeadEncrypt (P.pbkdf2 password salt) iv data).1).drop
          (SALT_LENGTH + IV_LENGTH + AUTH_TAG_LENGTH)
      = (P.aeadEncrypt (P.pbkdf2 password salt) iv data).1 := by
    rw [← List.drop_drop, hdrop2, drop_append_of_length _ htag]
  rw [h1, h2, h3, h4]

/--
C4.  Codec round trip: for every byte payload (the empty payload
included) and password, decrypting the output of `encrypt` with the same
password returns exactly the payload.  Hypotheses: lengths of the
external salt/iv draws and of the GCM tag, byte-exactness of the external
base64 codec on this blob, and correctness of the external AES-256-GCM
primitive on the key, iv, tag and ciphertext `encrypt` produced.
-/
theorem encrypt_decrypt_roundtrip (P : CryptoPrims) (data : List Nat) (password : String)
    (salt iv : List Nat)
    (hsalt : salt.length = SALT_LENGTH) (hiv : iv.length = IV_LENGTH)
    (htag : (P.aeadEncrypt (P.pbkdf2 password salt) iv data).2.length = AUTH_TAG_LENGTH)
    (hb64 : P.fromBase64 (P.toBase64
        (salt ++ iv ++ (P.aeadEncrypt (P.pbkdf2 password salt) iv data).2
          ++ (P.aeadEncrypt (P.pbkdf2 password salt) iv data).1))
      = salt ++ iv ++ (P.aeadEncrypt (P.pbkdf2 password salt) iv data).2
          ++ (P.aeadEncrypt (P.pbkdf2 password salt) iv data).1)
    (haead : P.aeadDecrypt (P.pbkdf2 password salt) iv
        (P.aeadEncrypt (P.pbkdf2 password salt) iv data).2
        (P.aeadEncrypt (P.pbkdf2 password salt) iv data).1 = some data) :
    decryptModel P (encryptModel P data password salt iv) password = some data := by
  obtain ⟨-, hfields⟩ :=
    encrypt_blob_layout P data password salt iv hsalt hiv htag hb64
  rw [decryptModel, hfields]
  exact haead

/-- Concrete primitives for the closed witnesses: a constant key
derivation, an identity cipher carrying a constant tag, and a byte-exact
text codec. -/
def demoPrims : CryptoPrims :=
  { pbkdf2 := fun _ _ => List.replicate 32 0
    aeadEncrypt := fun _ _ m => (m, List.replicate 16 7)
    aeadDecrypt := fun _ _ t c => if t = List.replicate 16 7 then some c else none
    toBase64 := fun b => String.mk (b.map Char.ofNat)
    fromBase64 := fun s => s.data.map Char.toNat }

/-- Witness for C4 at the empty payload. -/
theorem encrypt_decrypt_roundtrip_witness :
    decryptModel demoPrims
      (encryptModel demoPrims [] "pw" (List.replicate 64 3) (List.replicate 16 5)) "pw"
      = some [] :=
  encrypt_decrypt_roundtrip demoPrims [] "pw" (List.replicate 64 3) (List.replicate 16 5)
    (by decide) (by decide) (by decide) (by decide) (by decide)

/-- Witness for C9 at a one-byte payload. -/
theorem encrypt_blob_layout_witness :
    demoPrims.fromBase64
        (encryptModel demoPrims [42] "pw" (List.replicate 64 3) (List.replicate 16 5))
      = List.replicate 64 3 ++ List.replicate 16 5
          ++ (demoPrims.aeadEncrypt (demoPrims.pbkdf2 "pw" (List.replicate 64 3))
              (List.replicate 16 5) [42]).2
          ++ (demoPrims.aeadEncrypt (demoPrims.pbkdf2 "pw" (List.replicate 64 3))
              (List.replicate 16 5) [42]).1
    ∧ decryptFields demoPrims
        (encryptModel demoPrims [42] "pw" (List.replicate 64 3) (List.replicate 16 5))
      = (List.replicate 64 3, List.replicate 16 5,
         (demoPrims.aeadEncrypt (demoPrims.pbkdf2 "pw" (List.replicate 64 3))
            (List.replicate 16 5) [42]).2,
         (demoPrims.aeadEncrypt (demoPrims.pbkdf2 "pw" (List.replicate 64 3))
            (List.replicate 16 5) [42]).1) :=
  encrypt_blob_layout demoPrims [42] "pw" (List.replicate 64 3) (List.replicate 16 5)
    (by decide) (by decide) (by decide) (by decide)

end CryptoModel

namespace OrchestratorModel

/-- Which external tier (or cache-population write) a call touches, in
order of occurrence. -/
inductive TierEvent where
  | filterCheckEv
  | cacheGetEv
  | dbGetEv
  | cacheSetEv
  | filterAddEv
deriving DecidableEq, Repr

/-- The options record of `EntityLookupService.exists`, with the source's
defaults. -/
structure LookupOptions where
  skipBloomFilter : Bool := false
  skipRedisCache : Bool := false
  forceDatabaseCheck : Bool := false
  updateCachesIfFound : Bool := true

/-- The tier that produced the definitive answer (the source's string
tags "bloomfilter" / "redis" / "database"). -/
inductive LookupSource where
  | bloomfilter
  | redis
  | database
deriving DecidableEq, Repr

/-- The `ILookupResult` record (the wall-clock `queryTimeMs` field is not
modelled). -/
structure LookupResult (T : Type) where
  exists_ : Bool
  entity : Option T
  source : LookupSource
deriving DecidableEq

/-- The orchestrator's collaborators for one identifier lookup: the
worker-pool filter check, the Redis repository and the database fetch
strategy.  `Except.error` models a thrown/rejected call. -/
structure LookupEnv (T : Type) where
  bloomFilterInitialized : Bool
  filterCheck : String → Except String Bool
  cacheGet : String → Except String (Option T)
  dbGet : String → Except String (Option T)

/-- The database phase of `exists` (reached when neither earlier tier
terminated the call): a thrown fetch maps to the wrapped internal error;
a found entity optionally fires the cache-population writes. -/
def dbPhase {T : Type} (env : LookupEnv T) (identifier : String) (opts : LookupOptions)
    (tr : List TierEvent) : Except String (LookupResult T) × List TierEvent :=
  match env.dbGet identifier with
  | .error e => (.error ("Entity lookup failed: " ++ e), tr ++ [.dbGetEv])
  | .ok (some ent) =>
    (.ok { exists_ := true, entity := some ent, source := .database },
     tr ++ [.dbGetEv]
        ++ (if opts.updateCachesIfFound then
              .cacheSetEv :: (if env.bloomFilterInitialized then [.filterAddEv] else [])
            else []))
  | .ok none =>
    (.ok { exists_ := false, entity := none, source := .database }, tr ++ [.dbGetEv])

/-- The Redis phase of `exists`: a hit terminates with the cached entity;
a miss terminates with a not-found answer unless a database check is
forced; a thrown cache call falls through to the database. -/
def cachePhase {T : Type} (env : LookupEnv T) (identifier : String) (opts : LookupOptions)
    (tr : List TierEvent) : Except String (LookupResult T) × List TierEvent :=
  if opts.skipRedisCache then dbPhase env identifier opts tr
  else
    match env.cacheGet identifier with
    | .ok (some data) =>
      (.ok { exists_ := true, entity := some data, source := .redis },
       tr ++ [.cacheGetEv])
    | .ok none =>
      if opts.forceDatabaseCheck then dbPhase env identifier opts (tr ++ [.cacheGetEv])
      else
        (.ok { exists_ := false, entity := none, source := .redis }, tr ++ [.cacheGetEv])
    | .error _ => dbPhase env identifier opts (tr ++ [.cacheGetEv])

/-- `EntityLookupService.exists`: filter, then cache, then database, with
the source's short-circuits and error fallthroughs.  The second component
records which tiers were invoked, in order. -/
def entityExists {T : Type} (env : LookupEnv T) (identifier : String)
    (opts : LookupOptions) : Except String (LookupResult T) × List TierEvent :=
  if ¬ opts.skipBloomFilter ∧ env.bloomFilterInitialized then
    match env.filterCheck identifier with
    | .ok false =>
      (.ok { exists_ := false, entity := none, source := .bloomfilter },
       [.filterCheckEv])
    | .ok true => cachePhase env identifier opts [.filterCheckEv]
    | .error _ => cachePhase env identifier opts [.filterCheckEv]
  else cachePhase env identifier opts []

/--
C3.  When the filter tier is enabled (`skipBloomFilter = false`, with the
worker-pool filter initialized) and the filter reports absence, `exists`
returns a not-found result sourced from the filter tier, and neither the
cache nor the database (nor any cache-population write) is invoked during
the call: the event trace is exactly the one filter check.
-/
theorem exists_filter_short_circuit {T : Type} (env : LookupEnv T) (identifier : String)
    (opts : LookupOptions) (hskip : opts.skipBloomFilter = false)
    (hinit : env.bloomFilterInitialized = true)
    (habsent : env.filterCheck identifier = .ok false) :
    entityExists env identifier opts
      = (.ok { exists_ := false, entity := none, source := .bloomfilter },
         [.filterCheckEv])
    ∧ .cacheGetEv ∉ (entityExists env identifier opts).2
    ∧ .dbGetEv ∉ (entityExists env identifier opts).2 := by
  have h : entityExists env identifier opts
      = (.ok { exists_ := false, entity := none, source := .bloomfilter },
         [.filterCheckEv]) := by
    rw [entityExists, if_pos (by rw [hskip, hinit]; exact ⟨by simp, rfl⟩), habsent]
  refine ⟨h, ?_, ?_⟩ <;> rw [h] <;> simp

/-- A concrete environment in which the filter reports absence while both
the cache and the database would report the key present. -/
def envC3 : LookupEnv Nat :=
  { bloomFilterInitialized := true
    filterCheck := fun _ => .ok false
    cacheGet := fun _ => .ok (some 1)
    dbGet := fun _ => .ok (some 1) }

/-- Witness for C3 at a concrete environment and key. -/
theorem exists_filter_short_circuit_witness :
    entityExists envC3 "alice" {}
      = (.ok { exists_ := false, entity := none, source := .bloomfilter },
         [.filterCheckEv])
    ∧ TierEvent.cacheGetEv ∉ (entityExists envC3 "alice" {}).2
    ∧ TierEvent.dbGetEv ∉ (entityExists envC3 "alice" {}).2 :=
  exists_filter_short_circuit envC3 "alice" {} rfl rfl rfl

/-- A concrete environment in which the filter reports maybe-present, the
cache reports not-found, and the database holds the entity. -/
def envC2 : LookupEnv Nat :=
  { bloomFilterInitialized := true
    filterCheck := fun _ => .ok true
    cacheGet := fun _ => .ok none
    dbGet := fun _ => .ok (some 7) }

/--
C2 counterexample.  With the default options (no tier skipped, no forced
store check), a maybe-present filter answer followed by a cache miss
terminates the call with a not-found answer sourced from the cache tier:
the database — which here would have found the entity — is never
consulted, contradicting the claim that a cache miss always proceeds to
the store check.
-/
theorem exists_cache_miss_skips_database :
    entityExists envC2 "alice" {}
      = (.ok { exists_ := false, entity := none, source := .redis },
         [.filterCheckEv, .cacheGetEv])
    ∧ TierEvent.dbGetEv ∉ (entityExists envC2 "alice" {}).2
    ∧ envC2.dbGet "alice" = .ok (some 7) := by
  refine ⟨rfl, ?_, rfl⟩
  decide

/--
C2 (amended).  With the default options, a maybe-present filter answer
followed by a cache miss terminates the call with a not-found answer
sourced from the cache tier and the database is not consulted (the code
assumes the cache mirrors the store); the database is reached on a cache
miss only when `forceDatabaseCheck` is set, in which case the same
scenario does invoke it.
-/
theorem exists_cache_miss_behaviour {T : Type} (env : LookupEnv T) (identifier : String)
    (hinit : env.bloomFilterInitialized = true)
    (hmaybe : env.filterCheck identifier = .ok true)
    (hmiss : env.cacheGet identifier = .ok none) :
    entityExists env identifier {}
      = (.ok { exists_ := false, entity := none, source := .redis },
         [.filterCheckEv, .cacheGetEv])
    ∧ TierEvent.dbGetEv ∉ (entityExists env identifier {}).2
    ∧ TierEvent.dbGetEv ∈ (entityExists env identifier { forceDatabaseCheck := true }).2 := by
  have h : entityExists env identifier {}
      = (.ok { exists_ := false, entity := none, source := .redis },
         [.filterCheckEv, .cacheGetEv]) := by
    rw [entityExists, if_pos (by rw [hinit]; exact ⟨by simp, rfl⟩), hmaybe,
      cachePhase, if_neg (by simp), hmiss]
    rfl
  refine ⟨h, by rw [h]; simp, ?_⟩
  rw [entityExists, if_pos (by rw [hinit]; exact ⟨by simp, rfl⟩), hmaybe,
    cachePhase, if_neg (by simp), hmiss]
  simp only [if_pos rfl]
  rw [dbPhase]
  cases hdb : env.dbGet identifier with
  | error e => simp
  | ok o =>
    cases o with
    | none => simp
    | some ent => simp

/-- Witness for the amended C2 theorem at a concrete environment. -/
theorem exists_cache_miss_behaviour_witness :
    entityExists envC2 "alice" {}
      = (.ok { exists_ := false, entity := none, source := .redis },
         [.filterCheckEv, .cacheGetEv])
    ∧ TierEvent.dbGetEv ∉ (entityExists envC2 "alice" {}).2
    ∧ TierEvent.dbGetEv ∈ (entityExists envC2 "alice" { forceDatabaseCheck := true }).2 :=
  exists_cache_miss_behaviour envC2 "alice" rfl rfl rfl

end OrchestratorModel

namespace MultiLayerModel

/-- Events of the abstract multi-layer lookup service: the reads its
`exists` performs and the three writes its `add` performs. -/
inductive MLEvent where
  | bloomCheckEv
  | cacheGetEv
  | storeExistsEv
  | storeAddEv
  | cacheAddEv
  | bloomAddEv
deriving DecidableEq, Repr

/-- The write events among them. -/
def isWriteEv : MLEvent → Bool
  | .storeAddEv => true
  | .cacheAddEv => true
  | .bloomAddEv => true
  | _ => false

/-- The write events of a trace, in order. -/
def writeEvents (tr : List MLEvent) : List MLEvent := tr.filter isWriteEv

/-- The abstract collaborators of `AbstractMultiLayerLookupService`, one
per abstract method the template calls; `Except.error` models a rejected
promise, which the template does not catch. -/
structure MLEnv (K T : Type) where
  existsInBloomFilter : K → Except String Bool
  getFromCache : K → Except String (Option T)
  existsInStore : K → Except String Bool
  addToStore : K → T → Except String Unit
  addToCache : K → T → Except String Unit
  addToBloomFilter : K → Except String Unit

/-- `AbstractMultiLayerLookupService.exists`: bloom filter first (a false
answer short-circuits), then the cache (a non-null entity answers true),
then the persistent store. -/
def mlExists {K T : Type} (env : MLEnv K T) (k : K) : Except String Bool × List MLEvent :=
  match env.existsInBloomFilter k with
  | .error e => (.error e, [.bloomCheckEv])
  | .ok false => (.ok false, [.bloomCheckEv])
  | .ok true =>
    match env.getFromCache k with
    | .error e => (.error e, [.bloomCheckEv, .cacheGetEv])
    | .ok (some _) => (.ok true, [.bloomCheckEv, .cacheGetEv])
    | .ok none =>
      match env.existsInStore k with
      | .error e => (.error e, [.bloomCheckEv, .cacheGetEv, .storeExistsEv])
      | .ok b => (.ok b, [.bloomCheckEv, .cacheGetEv, .storeExistsEv])

/-- The message of the error `add` throws on a duplicate key. -/
def alreadyExistsMsg : String := "already exists"

/-- `AbstractMultiLayerLookupService.add`: full existence check first
(throwing the duplicate-key error when found), then write to the
persistent store, then the cache, then the bloom filter, each `await`ed
in that order with no error handling. -/
def mlAdd {K T : Type} (env : MLEnv K T) (k : K) (e : T) :
    Except String Unit × List MLEvent :=
  match mlExists env k with
  | (.error er, tr) => (.error er, tr)
  | (.ok true, tr) => (.error alreadyExistsMsg, tr)
  | (.ok false, tr) =>
    match env.addToStore k e with
    | .error er => (.error er, tr ++ [.storeAddEv])
    | .ok _ =>
      match env.addToCache k e with
      | .error er => (.error er, tr ++ [.storeAddEv, .cacheAddEv])
      | .ok _ =>
        match env.addToBloomFilter k with
        | .error er => (.error er, tr ++ [.storeAddEv, .cacheAddEv, .bloomAddEv])
        | .ok _ => (.ok (), tr ++ [.storeAddEv, .cacheAddEv, .bloomAddEv])

theorem mlExists_no_writes {K T : Type} (env : MLEnv K T) (k : K) :
    writeEvents (mlExists env k).2 = [] := by
  rw [mlExists]
  cases hb : env.existsInBloomFilter k with
  | error e => rfl
  | ok b =>
    cases b with
    | false => rfl
    | true =>
      cases hc : env.getFromCache k with
      | error e => rfl
      | ok o =>
        cases o with
        | some v => rfl
        | none =>
          cases hs : env.existsInStore k with
          | error e => rfl
          | ok b' => rfl

/--
C6.  The composed lookup-service `add` first checks full existence across
all tiers and fails with the duplicate-key error when the key is found
(performing no write); its trace is the existence-check trace followed by
its writes; the writes always form a prefix of
store-write, cache-write, filter-write (so they happen in that order);
a cache or filter write happens only after the store write succeeded (and
the filter write only after the cache write succeeded too); and a
successful `add` performed exactly the three writes in that order.
-/
theorem mlAdd_ordering {K T : Type} (env : MLEnv K T) (k : K) (e : T) :
    ((mlExists env k).1 = .ok true →
      (mlAdd env k e).1 = .error alreadyExistsMsg ∧ writeEvents (mlAdd env k e).2 = [])
    ∧ (mlAdd env k e).2 = (mlExists env k).2 ++ writeEvents (mlAdd env k e).2
    ∧ (∃ n, writeEvents (mlAdd env k e).2
        = [MLEvent.storeAddEv, MLEvent.cacheAddEv, MLEvent.bloomAddEv].take n)
    ∧ (MLEvent.cacheAddEv ∈ (mlAdd env k e).2 → env.addToStore k e = .ok ())
    ∧ (MLEvent.bloomAddEv ∈ (mlAdd env k e).2 →
        env.addToStore k e = .ok () ∧ env.addToCache k e = .ok ())
    ∧ ((mlAdd env k e).1 = .ok () →
        writeEvents (mlAdd env k e).2
          = [MLEvent.storeAddEv, MLEvent.cacheAddEv, MLEvent.bloomAddEv]) := by
  have hnw := mlExists_no_writes env k
  cases hx : mlExists env k with
  | mk r tr =>
    rw [hx] at hnw
    simp only at hnw
    rw [writeEvents] at hnw
    have hwtr : ∀ ev, isWriteEv ev = true → ev ∉ tr := by
      intro ev hev hm
      have hmem : ev ∈ List.filter isWriteEv tr := List.mem_filter.mpr ⟨hm, hev⟩
      rw [hnw] at hmem
      cases hmem
    cases r with
    | error er =>
      have hadd : mlAdd env k e = (.error er, tr) := by rw [mlAdd, hx]
      rw [hadd]
      refine ⟨?_, ?_, ?_, ?_, ?_, ?_⟩
      · intro h
        cases h
      · show tr = tr ++ writeEvents tr
        rw [writeEvents, hnw]
        exact (List.append_nil tr).symm
      · exact ⟨0, by rw [writeEvents]; rw [hnw]; rfl⟩
      · intro hm
        exact absurd hm (hwtr _ rfl)
      · intro hm
        exact absurd hm (hwtr _ rfl)
      · intro h
        cases h
    | ok b =>
      cases b with
      | true =>
        have hadd : mlAdd env k e = (.error alreadyExistsMsg, tr) := by rw [mlAdd, hx]
        rw [hadd]
        refine ⟨?_, ?_, ?_, ?_, ?_, ?_⟩
        · intro _
          exact ⟨rfl, by rw [writeEvents]; rw [hnw]⟩
        · show tr = tr ++ writeEvents tr
          rw [writeEvents, hnw]
          exact (List.append_nil tr).symm
        · exact ⟨0, by rw [writeEvents]; rw [hnw]; rfl⟩
        · intro hm
          exact absurd hm (hwtr _ rfl)
        · intro hm
          exact absurd hm (hwtr _ rfl)
        · intro h
          cases h
      | false =>
        cases hst : env.addToStore k e with
        | error er =>
          have hadd : mlAdd env k e = (.error er, tr ++ [.storeAddEv]) := by
            rw [mlAdd, hx, hst]
          rw [hadd]
          refine ⟨?_, ?_, ?_, ?_, ?_, ?_⟩
          · intro h
            cases h
          · show tr ++ [MLEvent.storeAddEv]
              = tr ++ writeEvents (tr ++ [MLEvent.storeAddEv])
            rw [writeEvents, List.filter_append, hnw]
            rfl
          · exact ⟨1, by rw [writeEvents, List.filter_append, hnw]; rfl⟩
          · intro hm
            simp only [List.mem_append, List.mem_singleton] at hm
            rcases hm with hm | hm
            · exact absurd hm (hwtr _ rfl)
            · exact absurd hm (by decide)
          · intro hm
            simp only [List.mem_append, List.mem_singleton] at hm
            rcases hm with hm | hm
            · exact absurd hm (hwtr _ rfl)
            · exact absurd hm (by decide)
          · intro h
            cases h
        | ok u =>
          cases u
          cases hca : env.addToCache k e with
          | error er =>
            have hadd : mlAdd env k e
                = (.error er, tr ++ [.storeAddEv, .cacheAddEv]) := by
              rw [mlAdd, hx, hst, hca]
            rw [hadd]
            refine ⟨?_, ?_, ?_, ?_, ?_, ?_⟩
            · intro h
              cases h
            · show tr ++ [MLEvent.storeAddEv, MLEvent.cacheAddEv]
                = tr ++ writeEvents (tr ++ [MLEvent.storeAddEv, MLEvent.cacheAddEv])
              rw [writeEvents, List.filter_append, hnw]
              rfl
            · exact ⟨2, by rw [writeEvents, List.filter_append, hnw]; rfl⟩
            · intro _
              rfl
            · intro hm
              simp only [List.mem_append, List.mem_cons, List.mem_singleton] at hm
              rcases hm with hm | hm | hm
              · exact absurd hm (hwtr _ rfl)
              · exact absurd hm (by decide)
              · exact absurd hm (by decide)
            · intro h
              cases h
          | ok u' =>
            cases u'
            cases hbf : env.addToBloomFilter k with
            | error er =>
              have hadd : mlAdd env k e
                  = (.error er, tr ++ [.storeAddEv, .cacheAddEv, .bloomAddEv]) := by
                rw [mlAdd, hx, hst, hca, hbf]
              rw [hadd]
              refine ⟨?_, ?_, ?_, ?_, ?_, ?_⟩
              · intro h
                cases h
              · show tr ++ [MLEvent.storeAddEv, MLEvent.cacheAddEv, MLEvent.bloomAddEv]
                  = tr ++ writeEvents
                      (tr ++ [MLEvent.storeAddEv, MLEvent.cacheAddEv, MLEvent.bloomAddEv])
                rw [writeEvents, List.filter_append, hnw]
                rfl
              · exact ⟨3, by rw [writeEvents, List.filter_append, hnw]; rfl⟩
              · intro _
                rfl
              · intro _
                exact ⟨rfl, rfl⟩
              · intro h
                cases h
            | ok u'' =>
              cases u''
              have hadd : mlAdd env k e
                  = (.ok (), tr ++ [.storeAddEv, .cacheAddEv, .bloomAddEv]) := by
                rw [mlAdd, hx, hst, hca, hbf]
              rw [hadd]
              refine ⟨?_, ?_, ?_, ?_, ?_, ?_⟩
              · intro h
                cases h
              · show tr ++ [MLEvent.storeAddEv, MLEvent.cacheAddEv, MLEvent.bloomAddEv]
                  = tr ++ writeEvents
                      (tr ++ [MLEvent.storeAddEv, MLEvent.cacheAddEv, MLEvent.bloomAddEv])
                rw [writeEvents, List.filter_append, hnw]
                rfl
              · exact ⟨3, by rw [writeEvents, List.filter_append, hnw]; rfl⟩
              · intro _
                rfl
              · intro _
                exact ⟨rfl, rfl⟩
              · intro _
                rw [writeEvents, List.filter_append, hnw]
                rfl

/-- A concrete environment with an absent key and all writes succeeding. -/
def envML : MLEnv String Nat :=
  { existsInBloomFilter := fun _ => .ok false
    getFromCache := fun _ => .ok none
    existsInStore := fun _ => .ok false
    addToStore := fun _ _ => .ok ()
    addToCache := fun _ _ => .ok ()
    addToBloomFilter := fun _ => .ok () }

/-- Witness for C6 at a concrete environment, key and entity. -/
theorem mlAdd_ordering_witness :
    ((mlExists envML "alice").1 = .ok true →
      (mlAdd envML "alice" 3).1 = .error alreadyExistsMsg
        ∧ writeEvents (mlAdd envML "alice" 3).2 = [])
    ∧ (mlAdd envML "alice" 3).2 = (mlExists envML "alice").2
        ++ writeEvents (mlAdd envML "alice" 3).2
    ∧ (∃ n, writeEvents (mlAdd envML "alice" 3).2
        = [MLEvent.storeAddEv, MLEvent.cacheAddEv, MLEvent.bloomAddEv].take n)
    ∧ (MLEvent.cacheAddEv ∈ (mlAdd envML "alice" 3).2 → envML.addToStore "alice" 3 = .ok ())
    ∧ (MLEvent.bloomAddEv ∈ (mlAdd envML "alice" 3).2 →
        envML.addToStore "alice" 3 = .ok () ∧ envML.addToCache "alice" 3 = .ok ())
    ∧ ((mlAdd envML "alice" 3).1 = .ok () →
        writeEvents (mlAdd envML "alice" 3).2
          = [MLEvent.storeAddEv, MLEvent.cacheAddEv, MLEvent.bloomAddEv]) :=
  mlAdd_ordering envML "alice" 3

end MultiLayerModel

namespace PoolModel

/-- Dispatch-relevant state of `ThreadsManager`: the per-unit operation
counters, the per-unit budget, the unit cap, the draining flag, whether
the worker file exists on disk (an external filesystem fact), and the
aggregate operation counter. -/
structure PoolState where
  workloads : List Nat
  operationsPerThread : Nat
  maxThreads : Nat
  isShuttingDown : Bool
  workerFileAvailable : Bool
  operationCounter : Nat

/-- Errors `createThread` / `assignOperation` throw. -/
inductive PoolError where
  | shuttingDown
  | maxThreadsReached
  | workerFileNotFound
deriving DecidableEq, Repr

/-- `ThreadsManager.createThread`: reject at the unit cap or when the
worker file is missing, otherwise append a zero-workload unit and return
its index. -/
def createThread (p : PoolState) : Except PoolError (Nat × PoolState) :=
  if p.maxThreads ≤ p.workloads.length then .error .maxThreadsReached
  else if ¬ p.workerFileAvailable then .error .workerFileNotFound
  else .ok (p.workloads.length, { p with workloads := p.workloads ++ [0] })

/-- The scan loop of `findAvailableThread`: the index of the first unit
whose workload is below the per-unit budget. -/
def firstWithCapacity (ws : List Nat) (cap : Nat) : Option Nat :=
  match ws with
  | [] => none
  | w :: rest => if w < cap then some 0 else (firstWithCapacity rest cap).map (· + 1)

/-- `ThreadsManager.findAvailableThread`: the first unit with spare
capacity, or a freshly created unit. -/
def findAvailableThread (p : PoolState) : Except PoolError (Nat × PoolState) :=
  match firstWithCapacity p.workloads p.operationsPerThread with
  | some i => .ok (i, p)
  | none => createThread p

/-- The dispatch part of `ThreadsManager.assignOperation`: reject while
draining, pick the unit, bump its workload and the aggregate counter.
(The message exchange with the chosen unit is external and not modelled;
the returned index is the unit the operation is posted to.) -/
def assignOperation (p : PoolState) : Except PoolError (Nat × PoolState) :=
  if p.isShuttingDown then .error .shuttingDown
  else
    match findAvailableThread p with
    | .error e => .error e
    | .ok (i, p') =>
      .ok (i, { p' with
        workloads := p'.workloads.set i (p'.workloads.getD i 0 + 1)
        operationCounter := p'.operationCounter + 1 })

theorem firstWithCapacity_some (ws : List Nat) (cap : Nat) :
    ∀ i, firstWithCapacity ws cap = some i →
      i < ws.length ∧ ws.getD i 0 < cap ∧ ∀ j < i, cap ≤ ws.getD j 0 := by
  induction ws with
  | nil => intro i h; cases h
  | cons w rest ih =>
    intro i h
    rw [firstWithCapacity] at h
    by_cases hw : w < cap
    · rw [if_pos hw] at h
      injection h with h'
      subst h'
      exact ⟨by simp, by simpa using hw, fun j hj => absurd hj (Nat.not_lt_zero j)⟩
    · rw [if_neg hw] at h
      cases hr : firstWithCapacity rest cap with
      | none => rw [hr] at h; cases h
      | some i' =>
        rw [hr] at h
        simp only [Option.map_some'] at h
        injection h with h'
        subst h'
        obtain ⟨hlen, hcap, hmin⟩ := ih i' hr
        refine ⟨by simpa using hlen, by simpa using hcap, ?_⟩
        intro j hj
        cases j with
        | zero => simpa using Nat.le_of_not_lt hw
        | succ j' =>
          have hj' : j' < i' := by omega
          simpa using hmin j' hj'

theorem firstWithCapacity_none (ws : List Nat) (cap : Nat)
    (h : firstWithCapacity ws cap = none) : ∀ j < ws.length, cap ≤ ws.getD j 0 := by
  induction ws with
  | nil => intro j hj; simp at hj
  | cons w rest ih =>
    intro j hj
    rw [firstWithCapacity] at h
    by_cases hw : w < cap
    · rw [if_pos hw] at h; cases h
    · rw [if_neg hw] at h
      cases j with
      | zero => simpa using Nat.le_of_not_lt hw
      | succ j' =>
        cases hr : firstWithCapacity rest cap with
        | some i => rw [hr] at h; simp at h
        | none =>
          have := ih hr j' (by simpa using hj)
          simpa using this

/--
C7 (amended).  `assignOperation` (when the pool is not draining)
dispatches to the first unit, in index order, whose workload is below the
per-unit operation budget — not to the least-loaded such unit; a new unit
is created (and dispatched to) only when every existing unit has reached
the budget, subject to the unit cap, at which the call fails.
-/
theorem pool_dispatch_first_fit (p : PoolState) (hs : p.isShuttingDown = false) :
    (∀ i, firstWithCapacity p.workloads p.operationsPerThread = some i →
        (∃ q, assignOperation p = .ok (i, q))
        ∧ p.workloads.getD i 0 < p.operationsPerThread
        ∧ ∀ j < i, p.operationsPerThread ≤ p.workloads.getD j 0)
    ∧ (firstWithCapacity p.workloads p.operationsPerThread = none →
        (∀ j < p.workloads.length, p.operationsPerThread ≤ p.workloads.getD j 0)
        ∧ (p.workloads.length < p.maxThreads → p.workerFileAvailable = true →
            ∃ q, assignOperation p = .ok (p.workloads.length, q))
        ∧ (p.maxThreads ≤ p.workloads.length →
            assignOperation p = .error .maxThreadsReached)) := by
  constructor
  · intro i hi
    obtain ⟨hlen, hcap, hmin⟩ := firstWithCapacity_some p.workloads p.operationsPerThread i hi
    exact ⟨⟨_, by rw [assignOperation, hs, if_neg (by simp), findAvailableThread, hi]⟩,
      hcap, hmin⟩
  · intro hn
    refine ⟨firstWithCapacity_none p.workloads p.operationsPerThread hn, ?_, ?_⟩
    · intro hlt hw
      exact ⟨_, by
        rw [assignOperation, hs, if_neg (by simp), findAvailableThread, hn, createThread,
          if_neg (Nat.not_le.mpr hlt), if_neg (by rw [hw]; simp)]⟩
    · intro hge
      rw [assignOperation, hs, if_neg (by simp), findAvailableThread, hn, createThread,
        if_pos hge]

/-- A pool with unit 0 at workload 3 and unit 1 at workload 1, budget 5. -/
def poolEx : PoolState :=
  { workloads := [3, 1], operationsPerThread := 5, maxThreads := 16,
    isShuttingDown := false, workerFileAvailable := true, operationCounter := 4 }

/--
C7 counterexample.  With workloads [3, 1] and a per-unit budget of 5,
both units have spare capacity and the least-loaded one is unit 1
(workload 1); `assignOperation` nevertheless dispatches to unit 0
(workload 3), the first unit found with capacity, so the dispatch is not
least-loaded.
-/
theorem pool_assign_not_least_loaded :
    assignOperation poolEx
      = .ok (0, { poolEx with workloads := [4, 1], operationCounter := 5 })
    ∧ poolEx.workloads.getD 0 0 = 3
    ∧ poolEx.workloads.getD 1 0 = 1
    ∧ poolEx.workloads.getD 1 0 < poolEx.workloads.getD 0 0
    ∧ poolEx.workloads.getD 1 0 < poolEx.operationsPerThread := by
  exact ⟨rfl, rfl, rfl, by decide, by decide⟩

/-- Witness instance of the amended C7 theorem at the concrete pool. -/
theorem pool_dispatch_first_fit_witness :
    (∀ i, firstWithCapacity poolEx.workloads poolEx.operationsPerThread = some i →
        (∃ q, assignOperation poolEx = .ok (i, q))
        ∧ poolEx.workloads.getD i 0 < poolEx.operationsPerThread
        ∧ ∀ j < i, poolEx.operationsPerThread ≤ poolEx.workloads.getD j 0)
    ∧ (firstWithCapacity poolEx.workloads poolEx.operationsPerThread = none →
        (∀ j < poolEx.workloads.length,
            poolEx.operationsPerThread ≤ poolEx.workloads.getD j 0)
        ∧ (poolEx.workloads.length < poolEx.maxThreads →
            poolEx.workerFileAvailable = true →
            ∃ q, assignOperation poolEx = .ok (poolEx.workloads.length, q))
        ∧ (poolEx.maxThreads ≤ poolEx.workloads.length →
            assignOperation poolEx = .error .maxThreadsReached)) :=
  pool_dispatch_first_fit poolEx rfl

end PoolModel

namespace BloomModel

/-- The asynchronous completion of `initXXHash`: the constructor leaves
`xxHasher` null (crypto fallback in effect) and the awaited
`this.xxHasher = await xxhash()` assignment later swaps the backend to
xxhash.  The assignment touches nothing else — in particular it does NOT
clear the hash memoization cache, so entries computed under the crypto
fallback survive the switch. -/
def initXXHashOp (f : Filter) (h64 : String → Nat → Nat) : Filter :=
  { f with params := { f.params with hasher := .xx h64 } }

/-- A fresh filter still on the crypto fallback (xxhash not yet
initialized), size 8, one hash function; the external digest is zeroed,
so the crypto path maps every element to bit 0. -/
def preSwitchFilter : Filter :=
  { params :=
      { size := 8
        numberOfHashFunctions := 1
        hasher := .crypto (fun _ => List.replicate 32 0) }
    bits := List.replicate 8 (.num 0)
    props := []
    hashCache := []
    expectedElements := .num 1000 }

/-- A concrete external xxhash that maps every input to 1, so the xx path
maps every element to bit 1 — different from the crypto path's bit 0. -/
def demoH64 : String → Nat → Nat := fun _ _ => 1

/-- The reachable stale state: "alice" added while the crypto fallback
was in effect (bit 0 set, positions [0] memoized), then the asynchronous
xxhash initialization resolved, switching the backend without clearing
the cache. -/
def staleFilter : Filter :=
  initXXHashOp (addOp preSwitchFilter (.str "alice")).2 demoH64

/--
C1 counterexample.  `add("alice")` is applied (and returns true) on the
crypto fallback path; then the asynchronous xxhash initialization
resolves — a background event of the source, not an import or reset —
and a `clearCache` call intervenes.  The subsequent `has("alice")`
recomputes the positions on the xx path, probes bit 1 instead of the
bit 0 the add set, and returns false: a false negative on that same
filter with no intervening import or reset.
-/
theorem bloom_backend_switch_false_negative :
    (addOp preSwitchFilter (.str "alice")).1 = true
    ∧ (hasOp (clearCacheOp staleFilter) (.str "alice")).1 = false := by
  decide

/--
C8 counterexample.  On the stale reachable state — "alice" added under
the crypto fallback, backend then switched by the asynchronous xxhash
initialization with the memoized positions left in place — `has("alice")`
answers true while the cache is intact (the stale entry [0] probes the
bit the add set) and false once the cache is cleared (the xx backend
recomputes position 1, whose bit is unset): clearing the cache changes
observable behaviour.
-/
theorem bloom_clearCache_observable_after_switch :
    (hasOp staleFilter (.str "alice")).1 = true
    ∧ (hasOp (clearCacheOp staleFilter) (.str "alice")).1 = false := by
  decide

end BloomModel
